import Mathlib

/-!
Verification of the statsd-aggregator slot table, flush ring, and downstream
host machinery (src/statsd-aggregator.c), as a shallow embedding.

Modelling conventions:
* Byte strings are `List Char`; the receive buffer line handed to
  `process_data_line` is a `List Char` ending in a newline byte.
* C `double` values (counter accumulator, sample value, sample rate) are
  embedded as `ℚ` with exact arithmetic; IEEE rounding and special values
  (infinities, NaN) are outside the embedding.
* The C library routine `strtod` is abstracted as a parameter
  `strtod : List Char → ℚ × ℕ × Bool` returning (parsed value, number of
  characters consumed up to `endptr`, errno-is-zero flag); the C code only
  observes these three outputs.
* The `sprintf "%.15g"` number rendering is abstracted as a parameter
  `fmt : ℚ → List Char` giving the digits part (the literal "|c\n" suffix of
  the format string is kept concrete).  The source sizes its headroom constant
  `MAX_COUNTER_LENGTH = 18` "because of \"%.15g|c\n\"", but glibc `%.15g`
  can emit more than 15 characters (a sixteen-digit magnitude renders in
  scientific notation with 20, extreme exponents with up to 22), which is what
  the analysis of claim C2 rests on.
* Sockets, timers and libev are abstracted into an event alphabet: one event
  per inbound line, the flush periodic tick, and the writable callback (whose
  downstream-selection outcome is a boolean, refined separately by the
  downstream host model).
-/

namespace StatsdAggregator

/-- DOWNSTREAM_BUF_SIZE from the source: size of outgoing packet buffers (MTU). -/
def DOWNSTREAM_BUF_SIZE : Nat := 1450

/-- DOWNSTREAM_BUF_NUM from the source: number of buffers in the egress ring. -/
def DOWNSTREAM_BUF_NUM : Nat := 16

/-- NUM_OF_SLOTS from the source: `DOWNSTREAM_BUF_SIZE / 7 = 207`. -/
def NUM_OF_SLOTS : Nat := DOWNSTREAM_BUF_SIZE / 7

/-- MAX_COUNTER_LENGTH from the source (headroom for a counter re-serialization). -/
def MAX_COUNTER_LENGTH : Nat := 18

/-- MAX_PACKETS_PER_SOCKET from the source. -/
def MAX_PACKETS_PER_SOCKET : Nat := 1000

/-- The enum `metric_type_e`. -/
inductive MetricType where
  | unknown
  | counter
  | other
deriving DecidableEq, Repr, Inhabited

/-- Structure `slot_s`: accumulator for one metric name.  `buffer` models the written
prefix of the fixed `char buffer[DOWNSTREAM_BUF_SIZE]` array (bytes past the
written region of the C array are never read by the program). -/
structure Slot where
  buffer : List Char
  name_length : Nat
  length : Nat
  counter : ℚ
  type : MetricType
deriving DecidableEq, Repr, Inhabited

/-- The aggregation/flush-ring part of `struct downstream_s`. -/
structure DState where
  slots : List Slot
  active_buffer_length : Nat
  active_buffer_idx : Nat
  flush_buffer_idx : Nat
  buffer_length : List Nat
  flush_armed : Bool
  packets_sent : Nat
deriving DecidableEq, Repr

/-- Index of the first occurrence of `c` in `l` (helper for `memchr`). -/
def chIdx : List Char → Char → Option Nat
  | [], _ => none
  | x :: xs, c => if x = c then some 0 else (chIdx xs c).map (· + 1)

/-- Models `memchr(line + start, c, len)`, returning the offset relative to `start`. -/
def memchrRel (line : List Char) (start len : Nat) (c : Char) : Option Nat :=
  chIdx ((line.drop start).take len) c

/-- Overwrite `data.length` bytes of `buf` starting at offset `off`
(models a `memcpy`/`sprintf` into the middle of a slot buffer). -/
def writeAt (buf : List Char) (off : Nat) (data : List Char) : List Char :=
  buf.take off ++ data ++ buf.drop (off + data.length)

/-- The bytes one slot contributes to the egress datagram: the packer
overwrites the final payload byte with a newline and copies `length` bytes
(`downstream_schedule_flush`, packing loop). -/
def packSlot (s : Slot) : List Char :=
  s.buffer.take (s.length - 1) ++ ['\n']

/-- The packed egress datagram for a slot table: slots whose payload length
equals their name length are omitted, the rest are concatenated in insertion
order (`downstream_schedule_flush`, packing loop). -/
def packDatagram (slots : List Slot) : List Char :=
  (slots.filter (fun s => s.length ≠ s.name_length)).foldr
    (fun s acc => packSlot s ++ acc) []

/-- Function `downstream_schedule_flush`: rotate the active buffer.  If the next ring
buffer is still queued, the slot table is dropped; otherwise the slot table is
packed into the current active buffer, the active index advances, and (when the
queue was previously empty) the writable watcher is armed, rotating the socket
first when `packets_sent` exceeded `MAX_PACKETS_PER_SOCKET`. -/
def downstream_schedule_flush (st : DState) : DState :=
  let newIdx := (st.active_buffer_idx + 1) % DOWNSTREAM_BUF_NUM
  let need := st.active_buffer_idx = st.flush_buffer_idx
  if 0 < st.buffer_length.getD newIdx 0 then
    { st with active_buffer_length := 0, slots := [] }
  else
    let packed := packDatagram st.slots
    let st1 : DState :=
      { st with
        buffer_length := st.buffer_length.set st.active_buffer_idx packed.length
        active_buffer_length := 0
        slots := []
        active_buffer_idx := newIdx }
    if need then
      { st1 with
        flush_armed := true
        packets_sent :=
          if MAX_PACKETS_PER_SOCKET < st1.packets_sent then 0 else st1.packets_sent }
    else st1

/-- Function `add_slot`: append a fresh slot holding only the metric name; the
accounting integer grows by the name length.  Returns the new slot's index
(the old `slots_used`). -/
def add_slot (st : DState) (line : List Char) (nameLen : Nat) : DState × Nat :=
  let slot : Slot :=
    { buffer := line.take nameLen
      name_length := nameLen
      length := nameLen
      counter := 0
      type := MetricType.unknown }
  ({ st with
      slots := st.slots ++ [slot]
      active_buffer_length := st.active_buffer_length + nameLen },
   st.slots.length)

/-- Predicate of the `find_slot` linear scan: same name length and equal
name bytes (`memcmp`). -/
def slotMatches (line : List Char) (nameLen : Nat) (s : Slot) : Bool :=
  s.name_length == nameLen && s.buffer.take nameLen == line.take nameLen

/-- Function `find_slot`: linear lookup by name; on a miss, schedule a premature flush
if appending the name would overflow the accounting bound, then append a slot. -/
def find_slot (st : DState) (line : List Char) (nameLen : Nat) : DState × Nat :=
  match st.slots.findIdx? (slotMatches line nameLen) with
  | some i => (st, i)
  | none =>
    let st1 :=
      if DOWNSTREAM_BUF_SIZE < st.active_buffer_length + nameLen then
        downstream_schedule_flush st
      else st
    add_slot st1 line nameLen

/-- Metric type classification (`insert_values_into_slot`, lines 346-349):
counter exactly when the byte following the group's first `|` is `c`. -/
def metric_type_of (line : List Char) (pos t : Nat) : MetricType :=
  if line.getD (pos + t + 1) ' ' = 'c' then MetricType.counter else MetricType.other

/-- Set the type tag of the slot at index `i`. -/
def setSlotType (st : DState) (i : Nat) (mt : MetricType) : DState :=
  { st with slots := st.slots.set i { st.slots.getD i default with type := mt } }

section Parser

variable (fmt : ℚ → List Char) (strtod : List Char → ℚ × Nat × Bool)

/-- Sample-rate extraction for a counter group starting at absolute offset
`pos` whose first `|` sits at relative offset `t` (`insert_values_into_slot`,
lines 369-378): look for a second `|` followed by `@`; the parsed rate is kept
only when `strtod` succeeded and consumed exactly the rest of the group,
otherwise the rate defaults to 1. -/
def rate_of (line : List Char) (pos t dataLen : Nat) : ℚ :=
  match memchrRel line (pos + t + 1) (dataLen - t) '|' with
  | none => 1
  | some r =>
    if line.getD (pos + t + 1 + r + 1) ' ' = '@' then
      let p := strtod (line.drop (pos + t + 1 + r + 2))
      if p.2.2 = true ∧ pos + t + 1 + r + 2 + p.2.1 + 1 = pos + dataLen then p.1 else 1
    else 1

/-- Mid-parse overflow handling (`insert_values_into_slot`, lines 360-365):
if the predicted worst-case growth would exceed the buffer size, schedule a
premature flush and re-allocate a slot with the same name and type. -/
def ensure_room (st : DState) (slotIdx : Nat) (line : List Char) (nameLen : Nat)
    (mt : MetricType) (need : Nat) : DState × Nat :=
  if DOWNSTREAM_BUF_SIZE < st.active_buffer_length + need then
    let st1 := downstream_schedule_flush st
    let p := add_slot st1 line nameLen
    (setSlotType p.1 p.2 mt, p.2)
  else (st, slotIdx)

/-- Accepted counter sample (`insert_values_into_slot`, lines 384-390): add the
increment to the accumulator and rewrite the payload in place to
`"<accumulator>|c\n"`; the accounting drops the old payload length and gains
the new one. -/
def apply_counter (st : DState) (slotIdx : Nat) (inc : ℚ) : DState :=
  let slot := st.slots.getD slotIdx default
  let newCounter := slot.counter + inc
  let payload := fmt newCounter ++ ['|', 'c', '\n']
  let newSlot : Slot :=
    { slot with
      buffer := writeAt slot.buffer slot.name_length payload
      counter := newCounter
      length := slot.name_length + payload.length }
  { st with
    slots := st.slots.set slotIdx newSlot
    active_buffer_length := st.active_buffer_length - slot.length + newSlot.length }

/-- Non-counter sample (`insert_values_into_slot`, lines 392-397): the group
bytes are appended verbatim at the end of the payload, with the final byte
rewritten to `:` (the packer later rewrites the final byte to a newline). -/
def apply_other (st : DState) (slotIdx : Nat) (line : List Char) (pos dataLen : Nat) :
    DState :=
  let slot := st.slots.getD slotIdx default
  let copied := ((line.drop pos).take dataLen).take (dataLen - 1) ++ [':']
  let newSlot : Slot :=
    { slot with
      buffer := writeAt slot.buffer slot.length copied
      length := slot.length + dataLen }
  { st with
    slots := st.slots.set slotIdx newSlot
    active_buffer_length := st.active_buffer_length + dataLen }

/-- One iteration of the value-group loop of `insert_values_into_slot`: the
group occupies `[pos, pos + dataLen)` of the line (its last byte is `:` for a
non-final group and `\n` for the final one).  Returns the updated state and
the (possibly re-allocated) slot index. -/
def process_group (st : DState) (slotIdx : Nat) (line : List Char)
    (nameLen pos dataLen : Nat) : DState × Nat :=
  match memchrRel line pos dataLen '|' with
  | none => (st, slotIdx)
  | some t =>
    let mt := metric_type_of line pos t
    let s0 := (st.slots.getD slotIdx default).type
    if s0 = MetricType.unknown ∨ s0 = mt then
      let stA := if s0 = MetricType.unknown then setSlotType st slotIdx mt else st
      let need := if mt = MetricType.counter then MAX_COUNTER_LENGTH else dataLen
      let p := ensure_room stA slotIdx line nameLen mt need
      if mt = MetricType.counter then
        let rate := rate_of strtod line pos t dataLen
        let v := strtod (line.drop pos)
        if v.2.2 = true ∧ v.2.1 = t then
          (apply_counter fmt p.1 p.2 (v.1 / rate), p.2)
        else p
      else
        (apply_other p.1 p.2 line pos dataLen, p.2)
    else (st, slotIdx)

theorem chIdx_lt_length {l : List Char} {c : Char} {i : Nat}
    (h : chIdx l c = some i) : i < l.length := by
  induction l generalizing i with
  | nil => simp [chIdx] at h
  | cons x xs ih =>
    by_cases hx : x = c
    · simp [chIdx, hx] at h
      simp only [List.length_cons]
      omega
    · simp [chIdx, hx] at h
      obtain ⟨j, hj, rfl⟩ := h
      have := ih hj
      simp only [List.length_cons]
      omega

theorem memchrRel_lt {line : List Char} {s len : Nat} {c : Char} {i : Nat}
    (h : memchrRel line s len c = some i) : i < len := by
  have h1 := chIdx_lt_length h
  have h2 : ((line.drop s).take len).length ≤ len := by
    simp [List.length_take]
  omega

/-- The group loop of `insert_values_into_slot` (lines 332-401): split the
remainder of the line at `:` separators; each group runs through
`process_group`; the loop exits after the group in which no `:` was found.
Each iteration consumes at least one of the remaining `bytes`, so the
structural `fuel` counter (passed as `bytes + 1` by the caller) never reaches
the unreachable `0` case. -/
def insert_values_loop (line : List Char) (nameLen : Nat) :
    Nat → DState → Nat → Nat → Nat → DState
  | 0, st, _, _, _ => st
  | fuel + 1, st, slotIdx, pos, bytes =>
    match memchrRel line pos bytes ':' with
    | none => (process_group fmt strtod st slotIdx line nameLen pos bytes).1
    | some i =>
      let p := process_group fmt strtod st slotIdx line nameLen pos (i + 1)
      insert_values_loop line nameLen fuel p.1 p.2 (pos + (i + 1)) (bytes - (i + 1))

/-- Function `insert_values_into_slot`: process the value groups following the name
colon at `colonIdx` against the slot found/created by `find_slot`. -/
def insert_values_into_slot (st : DState) (slotIdx : Nat) (line : List Char)
    (colonIdx : Nat) : DState :=
  insert_values_loop fmt strtod line (colonIdx + 1)
    (line.length - (colonIdx + 1) + 1) st slotIdx (colonIdx + 1)
    (line.length - (colonIdx + 1))

/-- Function `process_data_line`: locate the first `:`; without one the line is invalid
and ignored; otherwise look up / allocate the slot and fold the groups in. -/
def process_data_line (st : DState) (line : List Char) : DState :=
  match memchrRel line 0 line.length ':' with
  | none => st
  | some c =>
    let p := find_slot st line (c + 1)
    insert_values_into_slot fmt strtod p.1 p.2 line c

/-- The line-length gate of `udp_read_cb` (line 451):
`line_length > 6 && line_length < DOWNSTREAM_BUF_SIZE - MAX_COUNTER_LENGTH`. -/
def udp_line_ok (n : Nat) : Bool :=
  decide (6 < n) && decide (n < DOWNSTREAM_BUF_SIZE - MAX_COUNTER_LENGTH)

/-- Handling of one newline-terminated line inside `udp_read_cb`: lines with
invalid length are dropped with an error log and change nothing. -/
def udp_handle_line (st : DState) (line : List Char) : DState :=
  if udp_line_ok line.length then process_data_line fmt strtod st line else st

/-- Function `downstream_flush_cb` after a successful downstream selection (lines
213-229): send the buffer at `flush_buffer_idx`, zero its length, advance the
flush index, and disarm the watcher when the queue becomes empty. -/
def flush_send_step (st : DState) : DState :=
  let fb := st.flush_buffer_idx
  let st1 : DState :=
    { st with
      buffer_length := st.buffer_length.set fb 0
      packets_sent := st.packets_sent + 1
      flush_buffer_idx := (fb + 1) % DOWNSTREAM_BUF_NUM }
  if st1.flush_buffer_idx = st1.active_buffer_idx then
    { st1 with flush_armed := false }
  else st1

/-- Function `downstream_flush_cb` with the downstream-selection outcome abstracted to
a boolean: when no downstream host is alive the watcher is stopped and nothing
else changes; otherwise one send step runs. -/
def downstream_flush_cb (st : DState) (hostAvail : Bool) : DState :=
  if hostAvail then flush_send_step st
  else { st with flush_armed := false }

/-- Event alphabet of the reactor, restricted to the aggregation core:
an inbound line, the flush periodic tick, and the writable callback. -/
inductive Ev where
  | line (l : List Char)
  | flushTimer
  | flushCb (hostAvail : Bool)

/-- Reactor dispatch: the flush periodic only schedules a flush when the
active buffer has content (`downstream_flush_timer_cb`); the writable callback
only runs while the watcher is armed. -/
def applyEv (st : DState) : Ev → DState
  | Ev.line l => udp_handle_line fmt strtod st l
  | Ev.flushTimer =>
    if 0 < st.active_buffer_length then downstream_schedule_flush st else st
  | Ev.flushCb avail =>
    if st.flush_armed then downstream_flush_cb st avail else st

/-- Initial aggregation state established by `init_downstream`. -/
def initState : DState :=
  { slots := []
    active_buffer_length := 0
    active_buffer_idx := 0
    flush_buffer_idx := 0
    buffer_length := List.replicate DOWNSTREAM_BUF_NUM 0
    flush_armed := false
    packets_sent := 0 }

/-- Run the reactor on a sequence of events from the initial state. -/
def run (evs : List Ev) : DState :=
  evs.foldl (applyEv fmt strtod) initState

end Parser

/-- A concrete instance of the abstract `strtod` interface used for concrete
evaluations: unsigned decimal literals with an optional fraction part.  It
agrees with the C library `strtod` on every input fed to it below. -/
def strtodSample (s : List Char) : ℚ × Nat × Bool :=
  let ds := s.takeWhile Char.isDigit
  let n : Nat := ds.foldl (fun a c => a * 10 + (c.toNat - 48)) 0
  match s.drop ds.length with
  | '.' :: r2 =>
    let fs := r2.takeWhile Char.isDigit
    if fs.isEmpty then ((n : ℚ), ds.length, true)
    else
      let f : Nat := fs.foldl (fun a c => a * 10 + (c.toNat - 48)) 0
      ((n : ℚ) + (f : ℚ) / (10 : ℚ) ^ fs.length, ds.length + 1 + fs.length, true)
  | _ => ((n : ℚ), ds.length, true)

/-- A concrete instance of the abstract `%.15g` formatter used for concrete
evaluations: renders the integer part in decimal (enough for the integral
accumulator values appearing below, where it agrees with `%.15g`). -/
def fmtSample (q : ℚ) : List Char :=
  Nat.toDigits 10 q.num.toNat

/-! ## Downstream host set -/

/-- One `struct downstream_host_s` with its embedded health client: the IPv4
data address (`sa_in_data.sin_addr.s_addr`, the ports being fixed by the
configuration), the `alive` bit, and the in-progress probe file descriptor
(`health_client.super.fd`, `-1` when idle). -/
structure HostRec where
  addr : Nat
  alive : Bool
  fd : Int
deriving DecidableEq, Repr, Inhabited

/-- Advance a cursor into the host list by one, wrapping from the tail
(`host = host->next; if (host == NULL) host = downstream_hosts;`). -/
def nextHostIdx (n i : Nat) : Nat :=
  if i + 1 < n then i + 1 else 0

/-- The selection loop of `set_current_downstream_host` (lines 182-191): do at
most `k` advances, each first stepping the cursor (with wrap-around) and then
selecting the host if its `alive` bit is set. -/
def selectLoop (hosts : List HostRec) : Nat → Nat → Option Nat
  | 0, _ => none
  | k + 1, i =>
    let j := nextHostIdx hosts.length i
    if (hosts.getD j default).alive then some j else selectLoop hosts k j

/-- Function `set_current_downstream_host`: from the current cursor (or the list head
when there is none), run the selection loop for `num` steps
(`downstream_host_num`); an empty host list leaves the cursor untouched. -/
def set_current_downstream_host (hosts : List HostRec) (cur : Option Nat)
    (num : Nat) : Option Nat :=
  if hosts.isEmpty then cur else selectLoop hosts num (cur.getD 0)

/-- Function `downstream_flush_cb` composed with the real downstream selection: when no
host is selected the watcher is stopped and nothing else changes; otherwise
one send step runs.  Returns the new ring state and the new cursor. -/
def downstream_flush_cb_hosts (st : DState) (hosts : List HostRec)
    (cur : Option Nat) (num : Nat) : DState × Option Nat :=
  match set_current_downstream_host hosts cur num with
  | none => ({ st with flush_armed := false }, none)
  | some j => (flush_send_step st, some j)

/-! ## Address reconciliation (`update_downstreams`) -/

/-- The inner scan of `update_downstreams` (lines 650-657): look for the
host's address among the pending resolved addresses; on a match the matching
entry is consumed by zeroing it. -/
def markConsumed : List Nat → Nat → Bool × List Nat
  | [], _ => (false, [])
  | x :: xs, a =>
    if x = a then (true, 0 :: xs)
    else
      let p := markConsumed xs a
      (p.1, x :: p.2)

/-- The host-walking phase of `update_downstreams` (lines 646-672): keep each
host whose address is among the (not yet consumed) new addresses, delete the
rest.  Returns the surviving hosts, the address array with consumed entries
zeroed, and whether any host was deleted. -/
def reconcileHosts : List HostRec → List Nat → List HostRec × List Nat × Bool
  | [], addrs => ([], addrs, false)
  | h :: hs, addrs =>
    let m := markConsumed addrs h.addr
    let r := reconcileHosts hs m.2
    if m.1 then (h :: r.1, r.2.1, r.2.2) else (r.1, r.2.1, true)

/-- The allocation phase of `update_downstreams` (lines 673-694): every
not-consumed (nonzero) address becomes a fresh host with `alive = 0` and probe
fd `-1`, pushed at the head of the list. -/
def addNewHosts (hosts : List HostRec) (addrs : List Nat) : List HostRec :=
  addrs.foldl
    (fun acc a =>
      if a = 0 then acc else { addr := a, alive := false, fd := -1 } :: acc)
    hosts

/-- Function `update_downstreams`: when the resolver has published a fresh address set
(`in_addr_new_ready`), reconcile the host list against it and clear the ready
flag.  Returns the new host list, the new ready flag, and whether any host was
deleted (which is also when the source resets the selection cursor). -/
def update_downstreams (hosts : List HostRec) (addrs : List Nat) (ready : Bool) :
    List HostRec × Bool × Bool :=
  if ready then
    let r := reconcileHosts hosts addrs
    (addNewHosts r.1 r.2.1, false, r.2.2)
  else (hosts, ready, false)

/-! ## The accounting invariant (claims C2, C3) -/

/-- Structural well-formedness of one slot: the payload covers the name and
the written part of the buffer covers the payload. -/
def SlotWF (s : Slot) : Prop :=
  s.name_length ≤ s.length ∧ s.length ≤ s.buffer.length

/-- The accounting invariant: `active_buffer_length` equals the sum of the
payload lengths over used slots, and every slot is structurally well formed. -/
def InvA (st : DState) : Prop :=
  st.active_buffer_length = (st.slots.map Slot.length).sum ∧
  ∀ s ∈ st.slots, SlotWF s

theorem sum_map_set (f : Slot → Nat) :
    ∀ (l : List Slot) (i : Nat) (a : Slot), i < l.length →
      ((l.set i a).map f).sum + f (l.getD i default) = (l.map f).sum + f a := by
  intro l
  induction l with
  | nil => intro i a h; simp at h
  | cons x xs ih =>
    intro i a h
    cases i with
    | zero => simp [List.set]; omega
    | succ j =>
      have hj : j < xs.length := by
        simp only [List.length_cons] at h
        omega
      have := ih j a hj
      simp only [List.set, List.map_cons, List.sum_cons, List.getD_cons_succ]
      omega

theorem getD_mem_of_lt {l : List Slot} {i : Nat} (h : i < l.length) :
    l.getD i default ∈ l := by
  rw [List.getD_eq_getElem l default h]
  exact List.getElem_mem h

theorem length_le_sum {l : List Slot} {i : Nat} (h : i < l.length) :
    (l.getD i default).length ≤ (l.map Slot.length).sum := by
  exact List.single_le_sum (by intro x _; omega)
    (l.getD i default).length
    (List.mem_map_of_mem Slot.length (getD_mem_of_lt h))

theorem writeAt_length (buf : List Char) (off : Nat) (data : List Char)
    (h : off ≤ buf.length) :
    (writeAt buf off data).length = max buf.length (off + data.length) := by
  simp only [writeAt, List.length_append, List.length_take, List.length_drop]
  omega

theorem invA_init : InvA initState := by
  constructor <;> simp [initState]

theorem invA_schedule_flush {st : DState} (_h : InvA st) :
    InvA (downstream_schedule_flush st) := by
  unfold downstream_schedule_flush
  dsimp only
  split
  · exact ⟨rfl, by simp⟩
  · split
    · exact ⟨rfl, by simp⟩
    · exact ⟨rfl, by simp⟩

theorem invA_update {st : DState} {i : Nat} {a : Slot} {newAbl : Nat}
    (h : InvA st) (hi : i < st.slots.length) (hwf : SlotWF a)
    (habl : newAbl + (st.slots.getD i default).length
      = st.active_buffer_length + a.length) :
    InvA { st with slots := st.slots.set i a, active_buffer_length := newAbl } := by
  obtain ⟨h1, h2⟩ := h
  constructor
  · have := sum_map_set Slot.length st.slots i a hi
    simp only
    omega
  · intro s hs
    simp only at hs
    rcases List.mem_or_eq_of_mem_set hs with hs | rfl
    · exact h2 s hs
    · exact hwf

theorem invA_setSlotType {st : DState} {i : Nat} {mt : MetricType} (h : InvA st)
    (hi : i < st.slots.length) : InvA (setSlotType st i mt) := by
  have hwf := h.2 _ (getD_mem_of_lt hi)
  refine invA_update h hi ?_ ?_
  · exact hwf
  · rfl

theorem invA_add_slot {st : DState} {line : List Char} {nameLen : Nat}
    (h : InvA st) (hn : nameLen ≤ line.length) :
    InvA (add_slot st line nameLen).1 ∧
      (add_slot st line nameLen).2 < (add_slot st line nameLen).1.slots.length := by
  obtain ⟨h1, h2⟩ := h
  refine ⟨⟨?_, ?_⟩, ?_⟩
  · simp [add_slot, h1]
  · intro s hs
    simp only [add_slot, List.mem_append, List.mem_singleton] at hs
    rcases hs with hs | rfl
    · exact h2 s hs
    · refine ⟨le_refl _, ?_⟩
      simp only [List.length_take]
      omega
  · simp [add_slot]

theorem invA_find_slot {st : DState} {line : List Char} {nameLen : Nat}
    (h : InvA st) (hn : nameLen ≤ line.length) :
    InvA (find_slot st line nameLen).1 ∧
      (find_slot st line nameLen).2 < (find_slot st line nameLen).1.slots.length := by
  unfold find_slot
  cases hf : st.slots.findIdx? (slotMatches line nameLen) with
  | some i =>
    have := (List.findIdx?_eq_some_iff_findIdx_eq.mp hf).1
    exact ⟨h, this⟩
  | none =>
    dsimp only
    split
    · exact invA_add_slot (invA_schedule_flush h) hn
    · exact invA_add_slot h hn

theorem invA_ensure_room {st : DState} {slotIdx : Nat} {line : List Char}
    {nameLen : Nat} (mt : MetricType) (need : Nat)
    (h : InvA st) (hidx : slotIdx < st.slots.length) (hn : nameLen ≤ line.length) :
    InvA (ensure_room st slotIdx line nameLen mt need).1 ∧
      (ensure_room st slotIdx line nameLen mt need).2 <
        (ensure_room st slotIdx line nameLen mt need).1.slots.length := by
  unfold ensure_room
  split
  · have h1 := invA_add_slot (invA_schedule_flush h) hn
    dsimp only
    constructor
    · refine invA_setSlotType h1.1 ?_
      exact h1.2
    · simp only [setSlotType, List.length_set]
      exact h1.2
  · exact ⟨h, hidx⟩

theorem invA_apply_counter {fmt : ℚ → List Char} {st : DState} {slotIdx : Nat}
    {inc : ℚ} (h : InvA st) (hidx : slotIdx < st.slots.length) :
    InvA (apply_counter fmt st slotIdx inc) := by
  have hwf := h.2 _ (getD_mem_of_lt hidx)
  obtain ⟨hw1, hw2⟩ := hwf
  have hle : (st.slots.getD slotIdx default).length
      ≤ st.active_buffer_length := by
    have h1 := h.1
    have := length_le_sum hidx
    omega
  refine invA_update h hidx ?_ ?_
  · constructor
    · simp
    · have := writeAt_length
        (st.slots.getD slotIdx default).buffer
        (st.slots.getD slotIdx default).name_length
        (fmt ((st.slots.getD slotIdx default).counter + inc) ++ ['|', 'c', '\n'])
        (le_trans hw1 hw2)
      simp only
      omega
  · simp only
    omega

theorem invA_apply_other {st : DState} {slotIdx : Nat} {line : List Char}
    {pos dataLen : Nat} (h : InvA st) (hidx : slotIdx < st.slots.length)
    (hrange : pos + dataLen ≤ line.length) (hd : 1 ≤ dataLen) :
    InvA (apply_other st slotIdx line pos dataLen) := by
  have hwf := h.2 _ (getD_mem_of_lt hidx)
  obtain ⟨hw1, hw2⟩ := hwf
  have hcop : (((line.drop pos).take dataLen).take (dataLen - 1) ++ [':']).length
      = dataLen := by
    simp only [List.length_append, List.length_take, List.length_drop,
      List.length_cons, List.length_nil]
    omega
  refine invA_update h hidx ?_ ?_
  · constructor
    · simp only
      omega
    · have := writeAt_length
        (st.slots.getD slotIdx default).buffer
        (st.slots.getD slotIdx default).length
        (((line.drop pos).take dataLen).take (dataLen - 1) ++ [':']) hw2
      simp only
      omega
  · simp only
    omega

theorem invA_process_group (fmt : ℚ → List Char)
    (strtod : List Char → ℚ × Nat × Bool) {st : DState} {slotIdx : Nat}
    {line : List Char} {nameLen : Nat} (pos dataLen : Nat)
    (h : InvA st) (hidx : slotIdx < st.slots.length) (hn : nameLen ≤ line.length)
    (hrange : pos + dataLen ≤ line.length) :
    InvA (process_group fmt strtod st slotIdx line nameLen pos dataLen).1 ∧
      (process_group fmt strtod st slotIdx line nameLen pos dataLen).2 <
        (process_group fmt strtod st slotIdx line nameLen pos dataLen).1.slots.length := by
  unfold process_group
  cases ht : memchrRel line pos dataLen '|' with
  | none => exact ⟨h, hidx⟩
  | some t =>
    have htlt := memchrRel_lt ht
    dsimp only
    split
    · set mt := metric_type_of line pos t with hmt
      have hA : InvA (if (st.slots.getD slotIdx default).type = MetricType.unknown
          then setSlotType st slotIdx mt else st) := by
        split
        · exact invA_setSlotType h hidx
        · exact h
      have hAidx : slotIdx < (if (st.slots.getD slotIdx default).type = MetricType.unknown
          then setSlotType st slotIdx mt else st).slots.length := by
        split
        · simpa [setSlotType] using hidx
        · exact hidx
      split
      · have hE := invA_ensure_room mt MAX_COUNTER_LENGTH hA hAidx hn
        split
        · exact ⟨invA_apply_counter hE.1 hE.2, by
            simpa [apply_counter] using hE.2⟩
        · exact hE
      · have hE := invA_ensure_room mt dataLen hA hAidx hn
        exact ⟨invA_apply_other hE.1 hE.2 hrange (by omega), by
          simpa [apply_other] using hE.2⟩
    · exact ⟨h, hidx⟩

theorem invA_insert_loop {fmt : ℚ → List Char}
    {strtod : List Char → ℚ × Nat × Bool} {line : List Char} {nameLen : Nat}
    (hn : nameLen ≤ line.length) :
    ∀ (fuel : Nat) (st : DState) (slotIdx pos bytes : Nat),
      InvA st → slotIdx < st.slots.length → pos + bytes ≤ line.length →
      InvA (insert_values_loop fmt strtod line nameLen fuel st slotIdx pos bytes) := by
  intro fuel
  induction fuel with
  | zero => intro st slotIdx pos bytes h _ _; exact h
  | succ fuel ih =>
    intro st slotIdx pos bytes h hidx hrange
    simp only [insert_values_loop]
    cases hc : memchrRel line pos bytes ':' with
    | none => exact (invA_process_group fmt strtod pos bytes h hidx hn hrange).1
    | some i =>
      have hilt := memchrRel_lt hc
      have hp := invA_process_group fmt strtod pos (i + 1) h hidx hn (by omega)
      exact ih _ _ (pos + (i + 1)) (bytes - (i + 1)) hp.1 hp.2 (by omega)

theorem invA_process_data_line {fmt : ℚ → List Char}
    {strtod : List Char → ℚ × Nat × Bool} {st : DState} {line : List Char}
    (h : InvA st) : InvA (process_data_line fmt strtod st line) := by
  unfold process_data_line
  cases hc : memchrRel line 0 line.length ':' with
  | none => exact h
  | some c =>
    have hclt := memchrRel_lt hc
    have hn : c + 1 ≤ line.length := by omega
    have hf := invA_find_slot h hn
    dsimp only
    unfold insert_values_into_slot
    exact invA_insert_loop hn _ _ _ _ _ hf.1 hf.2 (by omega)

theorem invA_applyEv {fmt : ℚ → List Char}
    {strtod : List Char → ℚ × Nat × Bool} {st : DState} {e : Ev}
    (h : InvA st) : InvA (applyEv fmt strtod st e) := by
  cases e with
  | line l =>
    simp only [applyEv, udp_handle_line]
    split
    · exact invA_process_data_line h
    · exact h
  | flushTimer =>
    simp only [applyEv]
    split
    · exact invA_schedule_flush h
    · exact h
  | flushCb avail =>
    simp only [applyEv]
    split
    · unfold downstream_flush_cb flush_send_step
      obtain ⟨h1, h2⟩ := h
      split
      · dsimp only
        split
        · exact ⟨h1, h2⟩
        · exact ⟨h1, h2⟩
      · exact ⟨h1, h2⟩
    · exact h

theorem invA_run (fmt : ℚ → List Char) (strtod : List Char → ℚ × Nat × Bool)
    (evs : List Ev) : InvA (run fmt strtod evs) := by
  have hgen : ∀ (l : List Ev) (st : DState), InvA st →
      InvA (l.foldl (applyEv fmt strtod) st) := by
    intro l
    induction l with
    | nil => intro st h; exact h
    | cons e l ih => intro st h; exact ih _ (invA_applyEv h)
  exact hgen evs initState invA_init

/-- Claim C3: at every point between operations, the active-buffer accounting
integer `active_buffer_length` equals the sum of the payload lengths
(`slot.length`, which includes the name length) over all used slots; every
operation that changes a slot length or appends a slot preserves the equality
(established inductively over all event sequences from the initial state). -/
theorem C3_accounting_equals_sum (fmt : ℚ → List Char)
    (strtod : List Char → ℚ × Nat × Bool) (evs : List Ev) :
    (run fmt strtod evs).active_buffer_length =
      ((run fmt strtod evs).slots.map Slot.length).sum :=
  (invA_run fmt strtod evs).1

/-- Nineteen 75-byte filler lines with distinct names and verbatim
(non-counter) value groups, followed by the line `xy:1|c` and then the line
`xy:1234567890123456|c`.  After the fillers the accounting stands at
19 * 75 = 1425; creating slot `xy` and accepting its first sample raises it to
1432, exactly the largest value that still passes the counter room check
`active_buffer_length + MAX_COUNTER_LENGTH ≤ DOWNSTREAM_BUF_SIZE`. -/
def mtuOverflowEvents : List Ev :=
  ("abcdefghijklmnopqrs".toList.map (fun c =>
    Ev.line ('f' :: c :: ':' :: (List.replicate 68 '1' ++ ['|', 'm', 's', '\n']))))
  ++ [Ev.line ("xy:1|c\n".toList), Ev.line ("xy:1234567890123456|c\n".toList)]

/-- A concrete instance of the abstract `%.15g` formatter that agrees with
glibc `sprintf "%.15g"` on the two accumulator values occurring in
`mtuOverflowEvents`: 1 renders as "1" and 1234567890123457 renders as
"1.23456789012346e+15" (20 characters — `%g` switches to scientific notation
with 15 significant digits once the value has 16 of them).  Both accumulator
values, and the addition producing the second from 1234567890123456 + 1, are
exact in IEEE double (below 2^53), so the exact-rational model computes the
same values as the C program here. -/
def fmt15gAt (q : ℚ) : List Char :=
  if q.num = 1234567890123457 ∧ q.den = 1 then "1.23456789012346e+15".toList
  else Nat.toDigits 10 q.num.toNat

set_option maxRecDepth 100000 in
/-- Claim C2 fails on the code: `MAX_COUNTER_LENGTH = 18` underestimates the
worst case of a `%.15g` counter re-serialization, so the reserved headroom is
too small.  After `mtuOverflowEvents` the accounting is 1432, the room check
`1432 + 18 ≤ 1450` admits the final sample, and the accepted counter rewrites
its payload to the 26-byte `xy:1.23456789012346e+15|c\n`, driving the packed
egress datagram to 1451 bytes — beyond `DOWNSTREAM_BUF_SIZE`; the subsequent
rotation records 1451 bytes in the ring slot (in C the packing `memcpy` writes
one byte past the 1450-byte egress buffer and `sendto` is asked to send a
1451-byte datagram). -/
theorem C2_egress_datagram_exceeds_mtu :
    DOWNSTREAM_BUF_SIZE
      < (packDatagram (run fmt15gAt strtodSample mtuOverflowEvents).slots).length ∧
    (run fmt15gAt strtodSample
      (mtuOverflowEvents ++ [Ev.flushTimer])).buffer_length.getD 0 0
      = DOWNSTREAM_BUF_SIZE + 1 := by
  with_unfolding_all decide

theorem getD_set_self {l : List Slot} {i : Nat} (h : i < l.length) (a : Slot) :
    (l.set i a).getD i default = a := by
  rw [List.getD_eq_getElem?_getD, List.getElem?_set_self h]
  rfl

theorem getD_concat_length {l : List Slot} (a : Slot) :
    (l ++ [a]).getD l.length default = a := by
  rw [List.getD_eq_getElem?_getD, List.getElem?_concat_length]
  rfl

theorem take_writeAt (buf : List Char) (off : Nat) (data : List Char)
    (h : off ≤ buf.length) :
    (writeAt buf off data).take (off + data.length) = buf.take off ++ data := by
  have ha : (buf.take off).length = off := by
    simp only [List.length_take]
    omega
  simp only [writeAt]
  rw [List.take_append_eq_append_take]
  have hb : (buf.take off ++ data).length = off + data.length := by
    simp [List.length_append, ha]
  rw [List.take_of_length_le (le_of_eq hb)]
  rw [hb]
  simp

theorem process_group_counter_accept (fmt : ℚ → List Char)
    (strtod : List Char → ℚ × Nat × Bool) (st : DState) (slotIdx : Nat)
    (line : List Char) (nameLen pos dataLen t : Nat)
    (ht : memchrRel line pos dataLen '|' = some t)
    (hc : line.getD (pos + t + 1) ' ' = 'c')
    (hty : (st.slots.getD slotIdx default).type = MetricType.counter)
    (hroom : st.active_buffer_length + MAX_COUNTER_LENGTH ≤ DOWNSTREAM_BUF_SIZE)
    (hok : (strtod (line.drop pos)).2.2 = true)
    (hconsume : (strtod (line.drop pos)).2.1 = t) :
    process_group fmt strtod st slotIdx line nameLen pos dataLen
      = (apply_counter fmt st slotIdx
          ((strtod (line.drop pos)).1 / rate_of strtod line pos t dataLen),
         slotIdx) := by
  have hmt : metric_type_of line pos t = MetricType.counter := by
    unfold metric_type_of
    rw [if_pos hc]
  have hng : ¬ (DOWNSTREAM_BUF_SIZE
      < st.active_buffer_length + MAX_COUNTER_LENGTH) := by omega
  unfold process_group
  rw [ht]
  simp only [hmt, hty, ensure_room, hok, hconsume]
  simp [if_neg hng]

/-- Claim C1: for a counter slot, each accepted counter sample adds
`value / rate` to the accumulator (rate defaulting to 1 when the `|@rate`
part is absent) and rewrites the serialized payload in place to the metric
name followed by the formatted accumulator and the bytes `"|c\n"`, replacing
any previous counter payload; a freshly allocated slot starts with
accumulator 0. -/
theorem C1_counter_payload_rewrite (fmt : ℚ → List Char)
    (strtod : List Char → ℚ × Nat × Bool) (st : DState) (slotIdx : Nat)
    (line : List Char) (nameLen pos dataLen t : Nat)
    (ht : memchrRel line pos dataLen '|' = some t)
    (hc : line.getD (pos + t + 1) ' ' = 'c')
    (hidx : slotIdx < st.slots.length)
    (hty : (st.slots.getD slotIdx default).type = MetricType.counter)
    (hroom : st.active_buffer_length + MAX_COUNTER_LENGTH ≤ DOWNSTREAM_BUF_SIZE)
    (hok : (strtod (line.drop pos)).2.2 = true)
    (hconsume : (strtod (line.drop pos)).2.1 = t)
    (hbuf : (st.slots.getD slotIdx default).name_length
      ≤ (st.slots.getD slotIdx default).buffer.length) :
    (((process_group fmt strtod st slotIdx line nameLen pos dataLen).1.slots.getD
        slotIdx default).counter
      = (st.slots.getD slotIdx default).counter
        + (strtod (line.drop pos)).1 / rate_of strtod line pos t dataLen) ∧
    (((process_group fmt strtod st slotIdx line nameLen pos dataLen).1.slots.getD
        slotIdx default).length
      = (st.slots.getD slotIdx default).name_length
        + ((fmt ((st.slots.getD slotIdx default).counter
            + (strtod (line.drop pos)).1
              / rate_of strtod line pos t dataLen)).length + 3)) ∧
    (((process_group fmt strtod st slotIdx line nameLen pos dataLen).1.slots.getD
        slotIdx default).buffer.take
      (((process_group fmt strtod st slotIdx line nameLen pos dataLen).1.slots.getD
        slotIdx default).length)
      = (st.slots.getD slotIdx default).buffer.take
          ((st.slots.getD slotIdx default).name_length)
        ++ fmt ((st.slots.getD slotIdx default).counter
            + (strtod (line.drop pos)).1 / rate_of strtod line pos t dataLen)
        ++ ['|', 'c', '\n']) ∧
    (((process_group fmt strtod st slotIdx line nameLen pos dataLen).1.slots.getD
        slotIdx default).name_length = (st.slots.getD slotIdx default).name_length) ∧
    (memchrRel line (pos + t + 1) (dataLen - t) '|' = none →
      rate_of strtod line pos t dataLen = 1) ∧
    ((add_slot st line nameLen).1.slots.getD st.slots.length default).counter = 0 := by
  rw [process_group_counter_accept fmt strtod st slotIdx line nameLen pos dataLen t
    ht hc hty hroom hok hconsume]
  have hset : (apply_counter fmt st slotIdx
      ((strtod (line.drop pos)).1 / rate_of strtod line pos t dataLen),
      slotIdx).1.slots.getD slotIdx default
      = { st.slots.getD slotIdx default with
          buffer := writeAt (st.slots.getD slotIdx default).buffer
            (st.slots.getD slotIdx default).name_length
            (fmt ((st.slots.getD slotIdx default).counter
              + (strtod (line.drop pos)).1 / rate_of strtod line pos t dataLen)
              ++ ['|', 'c', '\n'])
          counter := (st.slots.getD slotIdx default).counter
            + (strtod (line.drop pos)).1 / rate_of strtod line pos t dataLen
          length := (st.slots.getD slotIdx default).name_length
            + (fmt ((st.slots.getD slotIdx default).counter
              + (strtod (line.drop pos)).1 / rate_of strtod line pos t dataLen)
              ++ ['|', 'c', '\n']).length } := by
    simp only [apply_counter]
    exact getD_set_self hidx _
  refine ⟨?_, ?_, ?_, ?_, ?_, ?_⟩
  · rw [hset]
  · rw [hset]
    simp [List.length_append]
  · rw [hset]
    have hlen : (fmt ((st.slots.getD slotIdx default).counter
        + (strtod (line.drop pos)).1 / rate_of strtod line pos t dataLen)
        ++ ['|', 'c', '\n']).length
        = (fmt ((st.slots.getD slotIdx default).counter
          + (strtod (line.drop pos)).1 / rate_of strtod line pos t dataLen)).length
          + 3 := by
      simp [List.length_append]
    simp only
    rw [take_writeAt _ _ _ hbuf]
    simp [List.append_assoc]
  · rw [hset]
  · intro hnone
    unfold rate_of
    rw [hnone]
  · simp only [add_slot]
    rw [getD_concat_length]

/-- Witness for C1: after `a:11|c`, the accepted sample `a:22|c` adds
`22 / 1` to the accumulator of slot 0. -/
theorem C1_counter_payload_rewrite_witness :
    ((process_group fmtSample strtodSample
        (run fmtSample strtodSample [Ev.line ("a:11|c\n".toList)]) 0
        ("a:22|c\n".toList) 2 2 5).1.slots.getD 0 default).counter
      = ((run fmtSample strtodSample
          [Ev.line ("a:11|c\n".toList)]).slots.getD 0 default).counter
        + (strtodSample (("a:22|c\n".toList).drop 2)).1
          / rate_of strtodSample ("a:22|c\n".toList) 2 2 5 :=
  (C1_counter_payload_rewrite fmtSample strtodSample
    (run fmtSample strtodSample [Ev.line ("a:11|c\n".toList)]) 0
    ("a:22|c\n".toList) 2 2 5 2
    (by with_unfolding_all decide) (by with_unfolding_all decide)
    (by with_unfolding_all decide) (by with_unfolding_all decide)
    (by with_unfolding_all decide) (by with_unfolding_all decide)
    (by with_unfolding_all decide) (by with_unfolding_all decide)).1

theorem add_slot_idx_lt (st : DState) (line : List Char) (nameLen : Nat) :
    (add_slot st line nameLen).2 < (add_slot st line nameLen).1.slots.length := by
  simp [add_slot]

theorem apply_counter_type (fmt : ℚ → List Char) (st : DState) (i : Nat)
    (inc : ℚ) (hi : i < st.slots.length) :
    ((apply_counter fmt st i inc).slots.getD i default).type
      = (st.slots.getD i default).type := by
  simp only [apply_counter]
  rw [getD_set_self hi]

theorem apply_other_type (st : DState) (i : Nat) (line : List Char)
    (pos dataLen : Nat) (hi : i < st.slots.length) :
    ((apply_other st i line pos dataLen).slots.getD i default).type
      = (st.slots.getD i default).type := by
  simp only [apply_other]
  rw [getD_set_self hi]

theorem ensure_room_type (st : DState) (slotIdx : Nat) (line : List Char)
    (nameLen : Nat) (mt : MetricType) (need : Nat)
    (hty : (st.slots.getD slotIdx default).type = mt)
    (hidx : slotIdx < st.slots.length) :
    (((ensure_room st slotIdx line nameLen mt need).1).slots.getD
        (ensure_room st slotIdx line nameLen mt need).2 default).type = mt ∧
    (ensure_room st slotIdx line nameLen mt need).2
      < (ensure_room st slotIdx line nameLen mt need).1.slots.length := by
  unfold ensure_room
  split
  · dsimp only
    have hlt := add_slot_idx_lt (downstream_schedule_flush st) line nameLen
    constructor
    · simp only [setSlotType]
      rw [getD_set_self hlt]
    · simp only [setSlotType, List.length_set]
      exact hlt
  · exact ⟨hty, hidx⟩

/-- Claim C7: once a slot's tag is promoted to counter or other, it never
changes: a group of the opposite category is rejected leaving the whole state
(tag, accumulator, payload, accounting) unchanged, and a group of the matching
category leaves the tag of the processed slot as it was. -/
theorem C7_tag_immutable (fmt : ℚ → List Char)
    (strtod : List Char → ℚ × Nat × Bool) (st : DState) (slotIdx : Nat)
    (line : List Char) (nameLen pos dataLen t : Nat)
    (ht : memchrRel line pos dataLen '|' = some t)
    (hidx : slotIdx < st.slots.length)
    (hset : (st.slots.getD slotIdx default).type ≠ MetricType.unknown) :
    ((metric_type_of line pos t ≠ (st.slots.getD slotIdx default).type →
      process_group fmt strtod st slotIdx line nameLen pos dataLen
        = (st, slotIdx))) ∧
    ((metric_type_of line pos t = (st.slots.getD slotIdx default).type →
      ((process_group fmt strtod st slotIdx line nameLen pos dataLen).1.slots.getD
          (process_group fmt strtod st slotIdx line nameLen pos dataLen).2
          default).type
        = (st.slots.getD slotIdx default).type)) := by
  constructor
  · intro hne
    unfold process_group
    rw [ht]
    dsimp only
    rw [if_neg]
    intro hcon
    rcases hcon with hcon | hcon
    · exact hset hcon
    · exact hne hcon.symm
  · intro heq
    unfold process_group
    rw [ht]
    dsimp only
    rw [if_pos (Or.inr heq.symm)]
    rw [if_neg hset]
    split
    · rename_i hcounter
      have hE := ensure_room_type st slotIdx line nameLen (metric_type_of line pos t)
        MAX_COUNTER_LENGTH heq.symm hidx
      split
      · dsimp only
        rw [apply_counter_type _ _ _ _ hE.2, hE.1, heq]
      · rw [hE.1, heq]
    · have hE := ensure_room_type st slotIdx line nameLen (metric_type_of line pos t)
        dataLen heq.symm hidx
      dsimp only
      rw [apply_other_type _ _ _ _ _ hE.2, hE.1, heq]

/-- Witness for C7: a slot typed counter by `a:11|c` rejects the mismatched
sample group `22|ms` unchanged, and keeps its tag across the matching group
`22|c`. -/
theorem C7_tag_immutable_witness :
    (metric_type_of ("a:22|ms\n".toList) 2 2
        ≠ ((run fmtSample strtodSample
          [Ev.line ("a:11|c\n".toList)]).slots.getD 0 default).type →
      process_group fmtSample strtodSample
        (run fmtSample strtodSample [Ev.line ("a:11|c\n".toList)]) 0
        ("a:22|ms\n".toList) 2 2 6
        = (run fmtSample strtodSample [Ev.line ("a:11|c\n".toList)], 0)) ∧
    (metric_type_of ("a:22|ms\n".toList) 2 2
        = ((run fmtSample strtodSample
          [Ev.line ("a:11|c\n".toList)]).slots.getD 0 default).type →
      ((process_group fmtSample strtodSample
          (run fmtSample strtodSample [Ev.line ("a:11|c\n".toList)]) 0
          ("a:22|ms\n".toList) 2 2 6).1.slots.getD
          (process_group fmtSample strtodSample
            (run fmtSample strtodSample [Ev.line ("a:11|c\n".toList)]) 0
            ("a:22|ms\n".toList) 2 2 6).2 default).type
        = ((run fmtSample strtodSample
          [Ev.line ("a:11|c\n".toList)]).slots.getD 0 default).type) :=
  C7_tag_immutable fmtSample strtodSample
    (run fmtSample strtodSample [Ev.line ("a:11|c\n".toList)]) 0
    ("a:22|ms\n".toList) 2 2 6 2
    (by with_unfolding_all decide) (by with_unfolding_all decide)
    (by with_unfolding_all decide)

theorem process_group_other_accept (fmt : ℚ → List Char)
    (strtod : List Char → ℚ × Nat × Bool) (st : DState) (slotIdx : Nat)
    (line : List Char) (nameLen pos dataLen t : Nat)
    (ht : memchrRel line pos dataLen '|' = some t)
    (hnc : line.getD (pos + t + 1) ' ' ≠ 'c')
    (hty : (st.slots.getD slotIdx default).type = MetricType.other)
    (hroom : st.active_buffer_length + dataLen ≤ DOWNSTREAM_BUF_SIZE) :
    process_group fmt strtod st slotIdx line nameLen pos dataLen
      = (apply_other st slotIdx line pos dataLen, slotIdx) := by
  have hmt : metric_type_of line pos t = MetricType.other := by
    unfold metric_type_of
    rw [if_neg hnc]
  have hng : ¬ (DOWNSTREAM_BUF_SIZE
      < st.active_buffer_length + dataLen) := by omega
  unfold process_group
  rw [ht]
  simp only [hmt, hty, ensure_room]
  simp [if_neg hng]

/-- Claim C6 (amended): a value group is classified as a counter exactly when
the single byte immediately following the group's first `|` is `c` — whatever
bytes follow it — and a group whose byte after `|` is not `c` is treated as
other, its bytes appended verbatim (`apply_other`). -/
theorem C6_type_classification (fmt : ℚ → List Char)
    (strtod : List Char → ℚ × Nat × Bool) (st : DState) (slotIdx : Nat)
    (line : List Char) (nameLen pos dataLen t : Nat)
    (ht : memchrRel line pos dataLen '|' = some t) :
    (metric_type_of line pos t = MetricType.counter
      ↔ line.getD (pos + t + 1) ' ' = 'c') ∧
    (line.getD (pos + t + 1) ' ' ≠ 'c' →
      (st.slots.getD slotIdx default).type = MetricType.other →
      st.active_buffer_length + dataLen ≤ DOWNSTREAM_BUF_SIZE →
      process_group fmt strtod st slotIdx line nameLen pos dataLen
        = (apply_other st slotIdx line pos dataLen, slotIdx)) := by
  constructor
  · constructor
    · intro hcl
      by_contra hnc
      unfold metric_type_of at hcl
      rw [if_neg hnc] at hcl
      exact MetricType.noConfusion hcl
    · intro hc
      unfold metric_type_of
      rw [if_pos hc]
  · intro hnc hty hroom
    exact process_group_other_accept fmt strtod st slotIdx line nameLen pos
      dataLen t ht hnc hty hroom

/-- Witness for C6: the group `250|ms` of `t:250|ms` has `m` after its `|`
and is appended verbatim to an other-typed slot. -/
theorem C6_type_classification_witness :
    (metric_type_of ("t:300|ms\n".toList) 2 3 = MetricType.counter
      ↔ ("t:300|ms\n".toList).getD 6 ' ' = 'c') ∧
    (("t:300|ms\n".toList).getD 6 ' ' ≠ 'c' →
      ((run fmtSample strtodSample
        [Ev.line ("t:250|ms\n".toList)]).slots.getD 0 default).type
          = MetricType.other →
      (run fmtSample strtodSample
        [Ev.line ("t:250|ms\n".toList)]).active_buffer_length + 7
          ≤ DOWNSTREAM_BUF_SIZE →
      process_group fmtSample strtodSample
        (run fmtSample strtodSample [Ev.line ("t:250|ms\n".toList)]) 0
        ("t:300|ms\n".toList) 2 2 7
        = (apply_other (run fmtSample strtodSample
            [Ev.line ("t:250|ms\n".toList)]) 0 ("t:300|ms\n".toList) 2 7, 0)) :=
  C6_type_classification fmtSample strtodSample
    (run fmtSample strtodSample [Ev.line ("t:250|ms\n".toList)]) 0
    ("t:300|ms\n".toList) 2 2 7 3 (by with_unfolding_all decide)

/-- Counterexample to C6 as stated: the line `a:1|cz` carries the
multi-character type tag `cz`, which the claim says is treated as other and
forwarded verbatim; the code classifies it as a counter (only the first byte
after `|` is inspected) and aggregates the value into the accumulator. -/
theorem C6_counterexample :
    ((run fmtSample strtodSample
      [Ev.line ("a:1|cz\n".toList)]).slots.getD 0 default).type
        = MetricType.counter ∧
    ((run fmtSample strtodSample
      [Ev.line ("a:1|cz\n".toList)]).slots.getD 0 default).counter = 1 := by
  with_unfolding_all decide

/-- Claim C5 (amended): an inbound line is processed exactly when its length
is at least 7 bytes and strictly less than
`DOWNSTREAM_BUF_SIZE - MAX_COUNTER_LENGTH` (i.e. at most 1431 bytes); a line
outside those bounds is dropped and leaves the state unchanged. -/
theorem C5_line_length_gate (fmt : ℚ → List Char)
    (strtod : List Char → ℚ × Nat × Bool) (st : DState) (line : List Char) :
    (udp_line_ok line.length = true ↔
      7 ≤ line.length ∧
        line.length + 1 ≤ DOWNSTREAM_BUF_SIZE - MAX_COUNTER_LENGTH) ∧
    (udp_line_ok line.length = false →
      udp_handle_line fmt strtod st line = st) := by
  constructor
  · simp only [udp_line_ok, Bool.and_eq_true, decide_eq_true_eq]
    constructor
    · intro h
      omega
    · intro h
      omega
  · intro hfalse
    unfold udp_handle_line
    rw [hfalse]
    simp

/-- Witness for C5: the 6-byte line `a:1|c` is dropped without touching the
state (the spec's own boundary example). -/
theorem C5_line_length_gate_witness :
    udp_handle_line fmtSample strtodSample initState ("a:1|c\n".toList)
      = initState :=
  (C5_line_length_gate fmtSample strtodSample initState
    ("a:1|c\n".toList)).2 (by decide)

/-- A well-formed counter line of length exactly
`DOWNSTREAM_BUF_SIZE - MAX_COUNTER_LENGTH` = 1432 bytes. -/
def boundaryLine : List Char :=
  'a' :: ':' :: (List.replicate 1427 '1' ++ ['|', 'c', '\n'])

set_option maxRecDepth 100000 in
/-- Counterexample to C5 as stated: the claim allows lines up to and including
`DOWNSTREAM_BUF_SIZE - MAX_COUNTER_LENGTH` = 1432 bytes, but the code requires
`line_length < DOWNSTREAM_BUF_SIZE - MAX_COUNTER_LENGTH`, so a 1432-byte line
is dropped (state unchanged) rather than processed. -/
theorem C5_counterexample :
    boundaryLine.length = DOWNSTREAM_BUF_SIZE - MAX_COUNTER_LENGTH ∧
    7 ≤ boundaryLine.length ∧
    udp_line_ok boundaryLine.length = false ∧
    udp_handle_line fmtSample strtodSample initState boundaryLine = initState := by
  refine ⟨by decide, by decide, by decide, ?_⟩
  exact (C5_line_length_gate fmtSample strtodSample initState boundaryLine).2
    (by decide)

/-- Input of 208 distinct 7-byte lines, each carrying a 4-byte metric name and a
malformed (pipe-less) value group, so each allocates a slot that contributes
only its 5-byte name to the accounting. -/
def overflowLines : List (List Char) :=
  (("abcdefghijklmno".toList.map (fun c1 =>
    "abcdefghijklmno".toList.map (fun c2 =>
      ['n', c1, c2, 'x', ':', 'x', '\n']))).flatten).take 208

/-- The event trace feeding `overflowLines` to the reactor. -/
def overflowEvents : List Ev :=
  overflowLines.map Ev.line

set_option maxRecDepth 1000000 in
/-- Claim C4 fails on the code: `find_slot`/`add_slot` never compare
`slots_used` against `NUM_OF_SLOTS`; the only gate is the accounting bound.
After the 208 distinct lines of `overflowEvents` (accounting total 5·208 =
1040 < 1450, so no premature flush is ever scheduled and no rotation occurs),
`slots_used` reaches 208 > `NUM_OF_SLOTS` = 207 — in the C program this writes
`slots[207]`, one past the end of the `slots[NUM_OF_SLOTS]` array. -/
theorem C4_slot_table_overflow :
    NUM_OF_SLOTS < (run fmtSample strtodSample overflowEvents).slots.length ∧
    (run fmtSample strtodSample overflowEvents).active_buffer_idx = 0 ∧
    (run fmtSample strtodSample overflowEvents).flush_armed = false := by
  with_unfolding_all decide

/-- The situation of claim C10 after the amendment: the writable watcher is
stopped, the ring still holds queued buffers, and the queued buffer at
`flush_buffer_idx` is non-empty. -/
def QueueStuck (st : DState) : Prop :=
  st.flush_armed = false ∧ st.flush_buffer_idx ≠ st.active_buffer_idx ∧
  0 < st.buffer_length.getD st.flush_buffer_idx 0

theorem getD_set_ne_nat {l : List Nat} {i j : Nat} (h : i ≠ j) (a : Nat) :
    (l.set i a).getD j 0 = l.getD j 0 := by
  rw [List.getD_eq_getElem?_getD, List.getD_eq_getElem?_getD,
    List.getElem?_set_ne h]

theorem qs_of_ring_eq {st st2 : DState} (h : QueueStuck st)
    (ha : st2.flush_armed = st.flush_armed)
    (hf : st2.flush_buffer_idx = st.flush_buffer_idx)
    (hac : st2.active_buffer_idx = st.active_buffer_idx)
    (hb : st2.buffer_length = st.buffer_length) : QueueStuck st2 := by
  obtain ⟨h1, h2, h3⟩ := h
  refine ⟨by rw [ha, h1], ?_, ?_⟩
  · rw [hf, hac]
    exact h2
  · rw [hf, hb]
    exact h3

theorem qs_schedule_flush {st : DState} (h : QueueStuck st) :
    QueueStuck (downstream_schedule_flush st) ∧
    (downstream_schedule_flush st).flush_buffer_idx = st.flush_buffer_idx := by
  obtain ⟨h1, h2, h3⟩ := h
  unfold downstream_schedule_flush
  dsimp only
  split
  · exact ⟨⟨h1, h2, h3⟩, rfl⟩
  · rename_i hemp
    have hne : st.flush_buffer_idx
        ≠ (st.active_buffer_idx + 1) % DOWNSTREAM_BUF_NUM := by
      intro he
      rw [← he] at hemp
      exact hemp h3
    rw [if_neg (fun hc => h2 hc.symm)]
    refine ⟨⟨h1, hne, ?_⟩, rfl⟩
    rw [getD_set_ne_nat (Ne.symm h2)]
    exact h3

theorem qs_ensure_room (st : DState) (slotIdx : Nat) (line : List Char)
    (nameLen : Nat) (mt : MetricType) (need : Nat) (h : QueueStuck st) :
    QueueStuck (ensure_room st slotIdx line nameLen mt need).1 ∧
    (ensure_room st slotIdx line nameLen mt need).1.flush_buffer_idx
      = st.flush_buffer_idx := by
  unfold ensure_room
  split
  · dsimp only
    have hq := qs_schedule_flush h
    exact ⟨qs_of_ring_eq hq.1 rfl rfl rfl rfl, hq.2⟩
  · exact ⟨h, rfl⟩

theorem qs_process_group (fmt : ℚ → List Char)
    (strtod : List Char → ℚ × Nat × Bool) {st : DState} (slotIdx : Nat)
    (line : List Char) (nameLen : Nat) (pos dataLen : Nat) (h : QueueStuck st) :
    QueueStuck (process_group fmt strtod st slotIdx line nameLen pos dataLen).1 ∧
    (process_group fmt strtod st slotIdx line nameLen pos dataLen).1.flush_buffer_idx
      = st.flush_buffer_idx := by
  unfold process_group
  cases ht : memchrRel line pos dataLen '|' with
  | none => exact ⟨h, rfl⟩
  | some t =>
    dsimp only
    split
    · have hstA : QueueStuck (if (st.slots.getD slotIdx default).type
          = MetricType.unknown
          then setSlotType st slotIdx (metric_type_of line pos t) else st) ∧
        (if (st.slots.getD slotIdx default).type = MetricType.unknown
          then setSlotType st slotIdx (metric_type_of line pos t)
          else st).flush_buffer_idx = st.flush_buffer_idx := by
        split
        · exact ⟨qs_of_ring_eq h rfl rfl rfl rfl, rfl⟩
        · exact ⟨h, rfl⟩
      split
      · have hq := qs_ensure_room _ slotIdx line nameLen
          (metric_type_of line pos t) MAX_COUNTER_LENGTH hstA.1
        split
        · exact ⟨qs_of_ring_eq hq.1 rfl rfl rfl rfl, hq.2.trans hstA.2⟩
        · exact ⟨hq.1, hq.2.trans hstA.2⟩
      · have hq := qs_ensure_room _ slotIdx line nameLen
          (metric_type_of line pos t) dataLen hstA.1
        exact ⟨qs_of_ring_eq hq.1 rfl rfl rfl rfl, hq.2.trans hstA.2⟩
    · exact ⟨h, rfl⟩

theorem qs_insert_loop (fmt : ℚ → List Char)
    (strtod : List Char → ℚ × Nat × Bool) (line : List Char) (nameLen : Nat) :
    ∀ (fuel : Nat) (st : DState) (slotIdx pos bytes : Nat), QueueStuck st →
      QueueStuck (insert_values_loop fmt strtod line nameLen fuel st slotIdx
        pos bytes) ∧
      (insert_values_loop fmt strtod line nameLen fuel st slotIdx pos
        bytes).flush_buffer_idx = st.flush_buffer_idx := by
  intro fuel
  induction fuel with
  | zero => intro st slotIdx pos bytes h; exact ⟨h, rfl⟩
  | succ fuel ih =>
    intro st slotIdx pos bytes h
    simp only [insert_values_loop]
    cases hc : memchrRel line pos bytes ':' with
    | none => exact qs_process_group fmt strtod slotIdx line nameLen pos bytes h
    | some i =>
      have hp := qs_process_group fmt strtod slotIdx line nameLen pos (i + 1) h
      have hl := ih (process_group fmt strtod st slotIdx line nameLen pos (i + 1)).1
        (process_group fmt strtod st slotIdx line nameLen pos (i + 1)).2
        (pos + (i + 1)) (bytes - (i + 1)) hp.1
      exact ⟨hl.1, hl.2.trans hp.2⟩

theorem qs_find_slot {st : DState} (line : List Char) (nameLen : Nat)
    (h : QueueStuck st) :
    QueueStuck (find_slot st line nameLen).1 ∧
    (find_slot st line nameLen).1.flush_buffer_idx = st.flush_buffer_idx := by
  unfold find_slot
  cases hf : st.slots.findIdx? (slotMatches line nameLen) with
  | some i => exact ⟨h, rfl⟩
  | none =>
    dsimp only
    split
    · have hq := qs_schedule_flush h
      exact ⟨qs_of_ring_eq hq.1 rfl rfl rfl rfl, hq.2⟩
    · exact ⟨qs_of_ring_eq h rfl rfl rfl rfl, rfl⟩

theorem qs_applyEv (fmt : ℚ → List Char) (strtod : List Char → ℚ × Nat × Bool)
    {st : DState} (e : Ev) (h : QueueStuck st) :
    QueueStuck (applyEv fmt strtod st e) ∧
    (applyEv fmt strtod st e).flush_buffer_idx = st.flush_buffer_idx := by
  cases e with
  | line l =>
    simp only [applyEv, udp_handle_line]
    split
    · unfold process_data_line
      cases hc : memchrRel l 0 l.length ':' with
      | none => exact ⟨h, rfl⟩
      | some c =>
        dsimp only
        unfold insert_values_into_slot
        have hf := qs_find_slot l (c + 1) h
        have hl := qs_insert_loop fmt strtod l (c + 1) (l.length - (c + 1) + 1)
          (find_slot st l (c + 1)).1 (find_slot st l (c + 1)).2 (c + 1)
          (l.length - (c + 1)) hf.1
        exact ⟨hl.1, hl.2.trans hf.2⟩
    · exact ⟨h, rfl⟩
  | flushTimer =>
    simp only [applyEv]
    split
    · exact qs_schedule_flush h
    · exact ⟨h, rfl⟩
  | flushCb avail =>
    simp only [applyEv]
    rw [if_neg]
    · exact ⟨h, rfl⟩
    · rw [h.1]
      exact Bool.false_ne_true

/-- Claim C10 (amended): if the flush watcher is stopped while the ring holds
queued buffers and the queued buffer at `flush_buffer_idx` is non-empty, then
no subsequent sequence of reactor events (inbound lines, flush ticks, writable
callbacks) ever restarts the watcher or advances the flush index: rotation
onto the non-empty head buffer is always refused, so `active_buffer_idx` can
never rejoin `flush_buffer_idx` and the queued datagrams are never sent, even
after downstream hosts come back alive. -/
theorem C10_stuck_queue_never_restarts (fmt : ℚ → List Char)
    (strtod : List Char → ℚ × Nat × Bool) (st : DState) (evs : List Ev)
    (h : QueueStuck st) :
    QueueStuck (evs.foldl (applyEv fmt strtod) st) ∧
    (evs.foldl (applyEv fmt strtod) st).flush_buffer_idx
      = st.flush_buffer_idx := by
  induction evs generalizing st with
  | nil => exact ⟨h, rfl⟩
  | cons e evs ih =>
    have he := qs_applyEv fmt strtod e h
    have hl := ih _ he.1
    exact ⟨hl.1, hl.2.trans he.2⟩

/-- Witness for C10 (amended): a stuck state reached by queueing `a:11|c`,
rotating, and then failing selection stays stuck over further events. -/
theorem C10_stuck_queue_never_restarts_witness :
    QueueStuck ((([Ev.line ("a:11|c\n".toList), Ev.flushTimer,
        Ev.flushCb false] : List Ev).foldl
        (applyEv fmtSample strtodSample) initState)) ∧
    (QueueStuck ((([Ev.line ("b:22|c\n".toList), Ev.flushTimer] : List Ev).foldl
        (applyEv fmtSample strtodSample)
        (([Ev.line ("a:11|c\n".toList), Ev.flushTimer,
          Ev.flushCb false] : List Ev).foldl
          (applyEv fmtSample strtodSample) initState))) ∧
      (([Ev.line ("b:22|c\n".toList), Ev.flushTimer] : List Ev).foldl
        (applyEv fmtSample strtodSample)
        (([Ev.line ("a:11|c\n".toList), Ev.flushTimer,
          Ev.flushCb false] : List Ev).foldl
          (applyEv fmtSample strtodSample) initState)).flush_buffer_idx
        = (([Ev.line ("a:11|c\n".toList), Ev.flushTimer,
          Ev.flushCb false] : List Ev).foldl
          (applyEv fmtSample strtodSample) initState).flush_buffer_idx) := by
  constructor
  · refine ⟨?_, ?_, ?_⟩ <;> with_unfolding_all decide
  · exact C10_stuck_queue_never_restarts fmtSample strtodSample _
      [Ev.line ("b:22|c\n".toList), Ev.flushTimer]
      ⟨by with_unfolding_all decide, by with_unfolding_all decide,
        by with_unfolding_all decide⟩

/-- The 7-byte line `aaaa:x` whose only value group is malformed (no `|`), so
its slot keeps `length = name_length` and packs to zero bytes. -/
def emptyPackLine : List Char := "aaaa:x\n".toList

/-- Events reaching the configuration of claim C10's hypothesis with an empty
queued buffer: pack a zero-length datagram, rotate, then fail selection. -/
def stuckTrace : List Ev :=
  [Ev.line emptyPackLine, Ev.flushTimer, Ev.flushCb false]

/-- Sixteen further line+tick rounds: each schedules a flush rotation. -/
def restartTrace : List Ev :=
  (List.replicate 16 [Ev.line emptyPackLine, Ev.flushTimer]).flatten

set_option maxRecDepth 100000 in
/-- Counterexample to C10 as stated: after `stuckTrace` the watcher is
stopped by the no-host callback while `flush_buffer_idx ≠ active_buffer_idx`
(the claim's hypothesis), yet the queued buffer has length zero, so subsequent
`downstream_schedule_flush` calls rotate straight through it: after sixteen
more rounds `active_buffer_idx` rejoins `flush_buffer_idx` and the next
rotation re-arms the watcher. -/
theorem C10_counterexample :
    (run fmtSample strtodSample stuckTrace).flush_armed = false ∧
    (run fmtSample strtodSample stuckTrace).flush_buffer_idx
      ≠ (run fmtSample strtodSample stuckTrace).active_buffer_idx ∧
    (run fmtSample strtodSample (stuckTrace ++ restartTrace)).flush_armed
      = true := by
  refine ⟨?_, ?_, ?_⟩ <;> with_unfolding_all decide

theorem getD_mem_host {l : List HostRec} {i : Nat} (h : i < l.length) :
    l.getD i default ∈ l := by
  rw [List.getD_eq_getElem l default h]
  exact List.getElem_mem h

theorem selectLoop_eq_find (hosts : List HostRec) :
    ∀ (k i : Nat),
      selectLoop hosts k i
        = ((List.range k).map
            (fun m => (nextHostIdx hosts.length)^[m + 1] i)).find?
            (fun j => (hosts.getD j default).alive) := by
  intro k
  induction k with
  | zero => intro i; simp [selectLoop]
  | succ k ih =>
    intro i
    rw [List.range_succ_eq_map]
    simp only [List.map_cons, List.map_map]
    have hhead : (nextHostIdx hosts.length)^[0 + 1] i
        = nextHostIdx hosts.length i := by
      simp
    have htail : ((fun m => (nextHostIdx hosts.length)^[m + 1] i) ∘ (· + 1))
        = fun m => (nextHostIdx hosts.length)^[m + 1]
            (nextHostIdx hosts.length i) := by
      funext m
      simp only [Function.comp_apply]
      rw [show m + 1 + 1 = (m + 1) + 1 from rfl]
      rw [Function.iterate_succ_apply]
    rw [hhead, htail]
    unfold selectLoop
    rw [List.find?_cons]
    cases ha : (hosts.getD (nextHostIdx hosts.length i) default).alive with
    | true => rw [if_pos ha]
    | false =>
      rw [if_neg (by rw [ha]; exact Bool.false_ne_true)]
      exact ih (nextHostIdx hosts.length i)

/-- Claim C8: at each send step the selector advances the cursor at most
`num` (`downstream_host_num`) positions, wrapping from the end of the host
list to its head, and selects the first host encountered whose alive bit is
set (the selection equals `find?` over the sequence of visited cursor
positions); when no host is alive the selection is empty and the writable
callback only disarms the watcher, leaving the ring state — in particular
`flush_buffer_idx` — untouched. -/
theorem C8_round_robin_selection (hosts : List HostRec) (cur : Option Nat)
    (num : Nat) (st : DState) (hne : hosts ≠ []) :
    (set_current_downstream_host hosts cur num
      = ((List.range num).map
          (fun m => (nextHostIdx hosts.length)^[m + 1] (cur.getD 0))).find?
          (fun j => (hosts.getD j default).alive)) ∧
    ((∀ h2 ∈ hosts, h2.alive = false) →
      set_current_downstream_host hosts cur num = none ∧
      downstream_flush_cb_hosts st hosts cur num
        = ({ st with flush_armed := false }, none)) := by
  have hdead : ∀ (hall : ∀ h2 ∈ hosts, h2.alive = false) (j : Nat),
      (hosts.getD j default).alive = false := by
    intro hall j
    by_cases hj : j < hosts.length
    · exact hall _ (getD_mem_host hj)
    · rw [List.getD_eq_getElem?_getD, List.getElem?_eq_none (by omega)]
      rfl
  have hmain : set_current_downstream_host hosts cur num
      = ((List.range num).map
          (fun m => (nextHostIdx hosts.length)^[m + 1] (cur.getD 0))).find?
          (fun j => (hosts.getD j default).alive) := by
    unfold set_current_downstream_host
    rw [if_neg (by simpa [List.isEmpty_iff] using hne)]
    exact selectLoop_eq_find hosts num (cur.getD 0)
  refine ⟨hmain, ?_⟩
  intro hall
  have hnone : set_current_downstream_host hosts cur num = none := by
    rw [hmain]
    rw [List.find?_eq_none]
    intro j _
    rw [hdead hall j]
    exact Bool.false_ne_true
  refine ⟨hnone, ?_⟩
  unfold downstream_flush_cb_hosts
  rw [hnone]

/-- Witness for C8 at a two-host list with both hosts dead. -/
theorem C8_round_robin_selection_witness :
    (set_current_downstream_host [⟨10, false, -1⟩, ⟨20, false, -1⟩] (some 0) 2
      = ((List.range 2).map
          (fun m => (nextHostIdx
            ([⟨10, false, -1⟩, ⟨20, false, -1⟩] : List HostRec).length)^[m + 1]
            ((some 0).getD 0))).find?
          (fun j => (([⟨10, false, -1⟩, ⟨20, false, -1⟩] : List HostRec).getD
            j default).alive)) ∧
    ((∀ h2 ∈ ([⟨10, false, -1⟩, ⟨20, false, -1⟩] : List HostRec),
        h2.alive = false) →
      set_current_downstream_host [⟨10, false, -1⟩, ⟨20, false, -1⟩]
        (some 0) 2 = none ∧
      downstream_flush_cb_hosts initState
        [⟨10, false, -1⟩, ⟨20, false, -1⟩] (some 0) 2
        = ({ initState with flush_armed := false }, none)) :=
  C8_round_robin_selection [⟨10, false, -1⟩, ⟨20, false, -1⟩] (some 0) 2
    initState (by decide)

theorem perm_diff_nil {l l2 : List Nat} (h : l.Perm l2) : l.diff l2 = [] := by
  have h1 : (↑(l.diff l2) : Multiset Nat) = ↑l - ↑l2 :=
    (Multiset.coe_sub l l2).symm
  have h2 : (↑l : Multiset Nat) = ↑l2 := Multiset.coe_eq_coe.mpr h
  have h3 : (↑(l.diff l2) : Multiset Nat) = 0 := by
    rw [h1, h2]
    simp
  exact (Multiset.coe_eq_zero (l.diff l2)).mp h3

theorem markConsumed_spec {a : Nat} (ha : a ≠ 0) :
    ∀ {addrs : List Nat}, a ∈ addrs →
      (markConsumed addrs a).1 = true ∧
      (markConsumed addrs a).2.filter (fun x => decide (x ≠ 0))
        = (addrs.filter (fun x => decide (x ≠ 0))).erase a := by
  intro addrs
  induction addrs with
  | nil => intro hmem; cases hmem
  | cons x xs ih =>
    intro hmem
    by_cases hx : x = a
    · simp only [markConsumed, if_pos hx]
      refine ⟨by simp, ?_⟩
      rw [List.filter_cons, List.filter_cons]
      have h0 : (decide ((0 : Nat) ≠ 0)) = false := by decide
      have hxt : (decide (x ≠ 0)) = true := by
        subst hx
        simpa using ha
      rw [h0, hxt]
      simp only [Bool.false_eq_true, if_false, if_true]
      subst hx
      rw [List.erase_cons_head]
    · simp only [markConsumed, if_neg hx]
      have hmem2 : a ∈ xs := by
        rcases List.mem_cons.mp hmem with hh | hh
        · exact absurd hh.symm hx
        · exact hh
      obtain ⟨ih1, ih2⟩ := ih hmem2
      refine ⟨ih1, ?_⟩
      rw [List.filter_cons, List.filter_cons]
      by_cases hx0 : x = 0
      · have : (decide (x ≠ 0)) = false := by
          subst hx0
          decide
        rw [this]
        simp only [Bool.false_eq_true, if_false]
        exact ih2
      · have : (decide (x ≠ 0)) = true := by simpa using hx0
        rw [this]
        simp only [if_true]
        rw [List.erase_cons_tail (by simpa using hx)]
        rw [ih2]

theorem reconcileHosts_keep :
    ∀ (hosts : List HostRec) (addrs : List Nat),
      (∀ h2 ∈ hosts, h2.addr ≠ 0) →
      (hosts.map HostRec.addr).Nodup →
      (∀ h2 ∈ hosts, h2.addr ∈ addrs) →
      ∃ addrs2,
        reconcileHosts hosts addrs = (hosts, addrs2, false) ∧
        addrs2.filter (fun x => decide (x ≠ 0))
          = (addrs.filter (fun x => decide (x ≠ 0))).diff
              (hosts.map HostRec.addr) := by
  intro hosts
  induction hosts with
  | nil =>
    intro addrs _ _ _
    exact ⟨addrs, rfl, by simp⟩
  | cons h hs ih =>
    intro addrs h0 hnd hmem
    have hh0 : h.addr ≠ 0 := h0 h (by simp)
    have hhm : h.addr ∈ addrs := hmem h (by simp)
    obtain ⟨hm1, hm2⟩ := markConsumed_spec hh0 hhm
    have hnd2 : (hs.map HostRec.addr).Nodup := (List.nodup_cons.mp hnd).2
    have hhne : h.addr ∉ hs.map HostRec.addr := (List.nodup_cons.mp hnd).1
    have hmem2 : ∀ h2 ∈ hs, h2.addr ∈ (markConsumed addrs h.addr).2 := by
      intro h2 hh2
      have hne : h2.addr ≠ h.addr := by
        intro hcon
        exact hhne (hcon ▸ List.mem_map_of_mem HostRec.addr hh2)
      have h2f : h2.addr ∈ addrs.filter (fun x => decide (x ≠ 0)) :=
        List.mem_filter.mpr ⟨hmem h2 (by simp [hh2]),
          by simpa using h0 h2 (by simp [hh2])⟩
      have : h2.addr ∈ (markConsumed addrs h.addr).2.filter
          (fun x => decide (x ≠ 0)) := by
        rw [hm2]
        exact (List.mem_erase_of_ne hne).mpr h2f
      exact (List.mem_filter.mp this).1
    obtain ⟨addrs2, heq, hfil⟩ := ih (markConsumed addrs h.addr).2
      (fun h2 hh2 => h0 h2 (by simp [hh2])) hnd2 hmem2
    refine ⟨addrs2, ?_, ?_⟩
    · simp only [reconcileHosts, hm1, heq, if_true]
    · rw [hfil, hm2]
      rw [List.map_cons, List.diff_cons]

theorem addNewHosts_all_zero :
    ∀ (addrs : List Nat) (acc : List HostRec), (∀ a ∈ addrs, a = 0) →
      addNewHosts acc addrs = acc := by
  intro addrs
  induction addrs with
  | nil => intro acc _; rfl
  | cons x xs ih =>
    intro acc hall
    have hx : x = 0 := hall x (by simp)
    simp only [addNewHosts, List.foldl_cons, if_pos hx]
    exact ih acc (fun a ha => hall a (by simp [ha]))

/-- Claim C9: reconciling the pending resolution slot with an address set
identical (as a set, the addresses being distinct and nonzero) to the current
host list is a no-op: no host is removed, no host is allocated, every host
record — identity, alive bit, probe file descriptor — is unchanged, and only
the ready flag is cleared. -/
theorem C9_reconcile_identical_noop (hosts : List HostRec) (addrs : List Nat)
    (h0 : ∀ h2 ∈ hosts, h2.addr ≠ 0)
    (hnd : (hosts.map HostRec.addr).Nodup)
    (hperm : addrs.Perm (hosts.map HostRec.addr)) :
    update_downstreams hosts addrs true = (hosts, false, false) := by
  have hmem : ∀ h2 ∈ hosts, h2.addr ∈ addrs :=
    fun h2 hh => (hperm.mem_iff).mpr (List.mem_map_of_mem HostRec.addr hh)
  obtain ⟨addrs2, heq, hfil⟩ := reconcileHosts_keep hosts addrs h0 hnd hmem
  have haf : addrs.filter (fun x => decide (x ≠ 0)) = addrs := by
    rw [List.filter_eq_self]
    intro a ha
    have : a ∈ hosts.map HostRec.addr := hperm.mem_iff.mp ha
    obtain ⟨h2, hh2, rfl⟩ := List.mem_map.mp this
    simpa using h0 h2 hh2
  have hfnil : addrs2.filter (fun x => decide (x ≠ 0)) = [] := by
    rw [hfil, haf]
    exact perm_diff_nil hperm
  have hall : ∀ a ∈ addrs2, a = 0 := by
    intro a ha
    by_contra hne
    have : a ∈ addrs2.filter (fun x => decide (x ≠ 0)) :=
      List.mem_filter.mpr ⟨ha, by simpa using hne⟩
    rw [hfnil] at this
    cases this
  unfold update_downstreams
  simp only [if_true, heq]
  rw [addNewHosts_all_zero addrs2 hosts hall]

/-- Witness for C9: two hosts with distinct addresses and a permuted identical
address set. -/
theorem C9_reconcile_identical_noop_witness :
    update_downstreams [⟨10, true, 5⟩, ⟨20, false, -1⟩] [20, 10] true
      = ([⟨10, true, 5⟩, ⟨20, false, -1⟩], false, false) :=
  C9_reconcile_identical_noop [⟨10, true, 5⟩, ⟨20, false, -1⟩] [20, 10]
    (by decide) (by decide) (by decide)

end StatsdAggregator
